import Mathlib

/-!
# Verification of the gistit dual-socket IPC bridge

Shallow embedding of `src/gistit-ipc/src/lib.rs`: the bincode wire format of
the `Instruction` / `ServerResponse` tagged unions, the datagram receive
buffer, the FIFO datagram channels between the two roles, the
`__connect_blocking` retry loop, and the filesystem effects of the `server` /
`client` constructors.

The bincode layout is the one produced by `bincode::serialize` /
`bincode::deserialize` (bincode 1.x legacy configuration): fixed-width
little-endian integers, enum variants tagged by their `u32` index, `String`
and `Vec` values length-prefixed with a `u64`, `usize` widened to `u64`,
`Option` tagged with one byte (0 = `None`, 1 = `Some`).  Strings are carried
as their raw UTF-8 byte lists.

The `Gistit` payload type comes from the `gistit_reference` crate, which is
not part of the sources; it is modelled from the spec.
-/

/-! ## Bytes and little-endian integers -/

/-- One octet, as transmitted in a datagram. -/
abbrev Byte := Fin 256

/-- A byte string. -/
abbrev Bytes := List Byte

/-- Exclusive bound of `u64` (and of `usize` on the 64-bit reference target). -/
def U64MOD : Nat := 2 ^ 64

/-- Exclusive bound of `u32`. -/
def U32MOD : Nat := 2 ^ 32

/-- `w`-byte little-endian encoding of `n` (mod `256 ^ w`), low byte first. -/
def toLE : Nat → Nat → Bytes
  | 0, _ => []
  | w + 1, n => ⟨n % 256, Nat.mod_lt _ (by omega)⟩ :: toLE w (n / 256)

/-- Read a little-endian byte list back as a natural number. -/
def fromLE : Bytes → Nat
  | [] => 0
  | b :: bs => b.val + 256 * fromLE bs

theorem toLE_length (w n : Nat) : (toLE w n).length = w := by
  induction w generalizing n with
  | zero => rfl
  | succ w ih => simp [toLE, ih]

theorem fromLE_toLE (w n : Nat) : fromLE (toLE w n) = n % 256 ^ w := by
  induction w generalizing n with
  | zero => simp [toLE, fromLE, Nat.mod_one]
  | succ w ih =>
      simp only [toLE, fromLE, ih]
      rw [pow_succ']
      have h1 : n % (256 * 256 ^ w) % 256 = n % 256 := Nat.mod_mul_right_mod n 256 (256 ^ w)
      have h2 : n % (256 * 256 ^ w) / 256 = n / 256 % 256 ^ w :=
        Nat.mod_mul_right_div_self n 256 (256 ^ w)
      omega

theorem fromLE_lt (b : Bytes) : fromLE b < 256 ^ b.length := by
  induction b with
  | nil => simp [fromLE]
  | cons x xs ih =>
      simp only [fromLE, List.length_cons, Nat.pow_succ]
      have hx : x.val < 256 := x.isLt
      have := ih
      nlinarith

theorem toLE_fromLE (b : Bytes) (w : Nat) (hw : b.length = w) :
    toLE w (fromLE b) = b := by
  induction b generalizing w with
  | nil => subst hw; rfl
  | cons x xs ih =>
      subst hw
      have hx : x.val < 256 := x.isLt
      have hmod : (x.val + 256 * fromLE xs) % 256 = x.val := by omega
      have hdiv : (x.val + 256 * fromLE xs) / 256 = fromLE xs := by omega
      simp only [toLE, fromLE, List.length_cons]
      rw [hdiv, ih xs.length rfl, List.cons.injEq]
      exact ⟨Fin.ext hmod, rfl⟩

/-! ## Parsing primitives

A parser consumes a prefix of a byte string and returns the parsed value
together with the unconsumed tail, or `none` on failure (bincode's
`deserialize` reads from a slice and ignores whatever trails the value it
decoded). -/

/-- The type of prefix-consuming byte parsers. -/
def BParse (α : Type) : Type := Bytes → Option (α × Bytes)

/-- Consume exactly `n` bytes; fail if fewer are available. -/
def readBytes (n : Nat) : BParse Bytes := fun l =>
  if n ≤ l.length then some (l.take n, l.drop n) else none

theorem readBytes_append (b r : Bytes) : readBytes b.length (b ++ r) = some (b, r) := by
  simp [readBytes]

theorem readBytes_canonical (n : Nat) (l b r : Bytes)
    (h : readBytes n l = some (b, r)) : l = b ++ r ∧ b.length = n := by
  simp only [readBytes] at h
  split at h
  · rename_i hle
    injection h with h
    injection h with h1 h2
    subst h1; subst h2
    exact ⟨(List.take_append_drop n l).symm, List.length_take_of_le hle⟩
  · exact absurd h (by simp)

/-! ## The message protocol (`src/gistit-ipc/src/lib.rs`, lines 207-247)

`Instruction` and `ServerResponse` mirror the two Rust enums (the
`cfg(test)`-only variants are absent from the library build and are not
modelled).  Rust `String`s are carried as their UTF-8 byte lists, `usize` /
`u32` as naturals. -/

/-- Modelled from the spec: the `Gistit` content-addressed payload type of the
`gistit_reference` crate (not among the sources) — "a content-addressed
payload type (`hash: string`, `content: bytes`)", serialized field by field
in declaration order. -/
structure Gistit where
  hash : Bytes
  content : Bytes
deriving DecidableEq

/-- The `ServerResponse` enum: daemon replies. -/
inductive ServerResponse where
  | provide (id : Option Bytes)
  | fetch (g : Gistit)
  | status (peer_id : Bytes) (peer_count : Nat) (pending_connections : Nat)
      (listeners : List Bytes) (hosting : Nat)
deriving DecidableEq

/-- The `Instruction` enum: the only type ever placed on the wire. -/
inductive Instruction where
  | provide (hash : Bytes) (data : Gistit)
  | fetch (hash : Bytes)
  | status
  | shutdown
  | response (r : ServerResponse)
deriving DecidableEq

/-! ## Serialization (`bincode::serialize`, fixed-int little-endian layout) -/

/-- `u64` (also `usize`, which bincode widens to `u64`): 8 bytes LE. -/
def serU64 (n : Nat) : Bytes := toLE 8 n

/-- `u32` (also an enum's variant index): 4 bytes LE. -/
def serU32 (n : Nat) : Bytes := toLE 4 n

/-- `String` / `Vec<u8>`: `u64` length followed by the raw bytes. -/
def serStr (s : Bytes) : Bytes := serU64 s.length ++ s

/-- `Option<String>`: one tag byte (0 = `None`, 1 = `Some`) then the payload. -/
def serOptStr : Option Bytes → Bytes
  | none => toLE 1 0
  | some s => toLE 1 1 ++ serStr s

/-- `Vec<String>`: `u64` element count followed by each element. -/
def serVecStr (l : List Bytes) : Bytes := serU64 l.length ++ (l.map serStr).flatten

/-- `Gistit`: its two fields in order, no framing. -/
def serGistit (g : Gistit) : Bytes := serStr g.hash ++ serStr g.content

/-- `ServerResponse`: `u32` variant index, then the variant's fields in order. -/
def serServerResponse : ServerResponse → Bytes
  | .provide o => serU32 0 ++ serOptStr o
  | .fetch g => serU32 1 ++ serGistit g
  | .status pid pc pend ls host =>
      serU32 2 ++ serStr pid ++ serU64 pc ++ serU32 pend ++ serVecStr ls ++ serU64 host

/-- `Instruction`: `u32` variant index, then the variant's fields in order. -/
def serInstruction : Instruction → Bytes
  | .provide h d => serU32 0 ++ serStr h ++ serGistit d
  | .fetch h => serU32 1 ++ serStr h
  | .status => serU32 2
  | .shutdown => serU32 3
  | .response r => serU32 4 ++ serServerResponse r

/-! ## Deserialization (`bincode::deserialize`)

Each parser consumes exactly one value off the front of the input and leaves
the tail untouched; bincode's slice deserializer does not require the input
to be fully drained. -/

/-- Read a `u64`. -/
def deserU64 : BParse Nat := fun l => (readBytes 8 l).map (fun p => (fromLE p.1, p.2))

/-- Read a `u32`. -/
def deserU32 : BParse Nat := fun l => (readBytes 4 l).map (fun p => (fromLE p.1, p.2))

/-- Read a `String` / `Vec<u8>`: `u64` length, then that many bytes. -/
def deserStr : BParse Bytes := fun l => (deserU64 l).bind (fun p => readBytes p.1 p.2)

/-- Read an `Option<String>`: tag byte must be 0 or 1, anything else fails. -/
def deserOptStr : BParse (Option Bytes) := fun l =>
  (readBytes 1 l).bind (fun p =>
    if fromLE p.1 = 0 then some (none, p.2)
    else if fromLE p.1 = 1 then (deserStr p.2).map (fun q => (some q.1, q.2))
    else none)

/-- Read exactly `n` consecutive `String`s. -/
def deserStrs : Nat → BParse (List Bytes)
  | 0 => fun l => some ([], l)
  | n + 1 => fun l =>
      (deserStr l).bind (fun p => (deserStrs n p.2).map (fun q => (p.1 :: q.1, q.2)))

/-- Read a `Vec<String>`: `u64` count, then that many elements. -/
def deserVecStr : BParse (List Bytes) := fun l => (deserU64 l).bind (fun p => deserStrs p.1 p.2)

/-- Read a `Gistit`: its two fields in order. -/
def deserGistit : BParse Gistit := fun l =>
  (deserStr l).bind (fun p => (deserStr p.2).map (fun q => (Gistit.mk p.1 q.1, q.2)))

/-- Read a `ServerResponse`: `u32` variant index (must be < 3), then fields. -/
def deserServerResponse : BParse ServerResponse := fun l =>
  (deserU32 l).bind (fun p =>
    if p.1 = 0 then (deserOptStr p.2).map (fun q => (.provide q.1, q.2))
    else if p.1 = 1 then (deserGistit p.2).map (fun q => (.fetch q.1, q.2))
    else if p.1 = 2 then
      (deserStr p.2).bind (fun q1 =>
        (deserU64 q1.2).bind (fun q2 =>
          (deserU32 q2.2).bind (fun q3 =>
            (deserVecStr q3.2).bind (fun q4 =>
              (deserU64 q4.2).map (fun q5 =>
                (.status q1.1 q2.1 q3.1 q4.1 q5.1, q5.2))))))
    else none)

/-- Read an `Instruction`: `u32` variant index (must be < 5), then fields. -/
def deserInstruction : BParse Instruction := fun l =>
  (deserU32 l).bind (fun p =>
    if p.1 = 0 then
      (deserStr p.2).bind (fun q => (deserGistit q.2).map (fun r => (.provide q.1 r.1, r.2)))
    else if p.1 = 1 then (deserStr p.2).map (fun q => (.fetch q.1, q.2))
    else if p.1 = 2 then some (.status, p.2)
    else if p.1 = 3 then some (.shutdown, p.2)
    else if p.1 = 4 then (deserServerResponse p.2).map (fun q => (.response q.1, q.2))
    else none)

/-! ## Representability bounds

Every value a real Rust process can hold satisfies these: lengths and
`usize` fields fit in `u64`, `u32` fields fit in `u32`. -/

/-- All lengths of a `Gistit` fit the `u64` length prefix. -/
def wfGistit (g : Gistit) : Prop := g.hash.length < U64MOD ∧ g.content.length < U64MOD

/-- All lengths and integer fields of a `ServerResponse` are representable. -/
def wfServerResponse : ServerResponse → Prop
  | .provide none => True
  | .provide (some s) => s.length < U64MOD
  | .fetch g => wfGistit g
  | .status pid pc pend ls host =>
      pid.length < U64MOD ∧ pc < U64MOD ∧ pend < U32MOD ∧ ls.length < U64MOD ∧
        (∀ s ∈ ls, s.length < U64MOD) ∧ host < U64MOD

/-- All lengths and integer fields of an `Instruction` are representable. -/
def wfInstruction : Instruction → Prop
  | .provide h d => h.length < U64MOD ∧ wfGistit d
  | .fetch h => h.length < U64MOD
  | .status => True
  | .shutdown => True
  | .response r => wfServerResponse r

instance (g : Gistit) : Decidable (wfGistit g) := by unfold wfGistit; infer_instance

instance : (r : ServerResponse) → Decidable (wfServerResponse r)
  | .provide none => by unfold wfServerResponse; infer_instance
  | .provide (some _) => by unfold wfServerResponse; infer_instance
  | .fetch _ => by unfold wfServerResponse; infer_instance
  | .status _ _ _ _ _ => by unfold wfServerResponse; infer_instance

instance (i : Instruction) : Decidable (wfInstruction i) := by
  cases i <;> (unfold wfInstruction; infer_instance)

/-! ## Round-trip: decoding an encoding returns the value, tail untouched -/

theorem U64MOD_eq : (256 : Nat) ^ 8 = U64MOD := by norm_num [U64MOD]

theorem U32MOD_eq : (256 : Nat) ^ 4 = U32MOD := by norm_num [U32MOD]

theorem readBytes_one (x : Byte) (r : Bytes) : readBytes 1 (x :: r) = some ([x], r) := by
  simp [readBytes]

theorem deserU64_ser (n : Nat) (hn : n < U64MOD) (r : Bytes) :
    deserU64 (serU64 n ++ r) = some (n, r) := by
  have h := readBytes_append (toLE 8 n) r
  rw [toLE_length] at h
  simp only [deserU64, serU64, h, Option.map_some']
  rw [fromLE_toLE, U64MOD_eq, Nat.mod_eq_of_lt hn]

theorem deserU32_ser (n : Nat) (hn : n < U32MOD) (r : Bytes) :
    deserU32 (serU32 n ++ r) = some (n, r) := by
  have h := readBytes_append (toLE 4 n) r
  rw [toLE_length] at h
  simp only [deserU32, serU32, h, Option.map_some']
  rw [fromLE_toLE, U32MOD_eq, Nat.mod_eq_of_lt hn]

theorem deserStr_ser (s : Bytes) (hs : s.length < U64MOD) (r : Bytes) :
    deserStr (serStr s ++ r) = some (s, r) := by
  simp only [deserStr, serStr, List.append_assoc, deserU64_ser s.length hs,
    Option.some_bind']
  exact readBytes_append s r

theorem deserOptStr_ser (o : Option Bytes) (ho : ∀ s, o = some s → s.length < U64MOD)
    (r : Bytes) : deserOptStr (serOptStr o ++ r) = some (o, r) := by
  cases o with
  | none =>
      simp only [serOptStr, deserOptStr, toLE, List.cons_append, List.nil_append,
        readBytes_one, Option.some_bind']
      norm_num [fromLE]
  | some s =>
      simp only [serOptStr, deserOptStr, toLE, List.cons_append, List.nil_append,
        List.append_assoc, readBytes_one, Option.some_bind']
      rw [if_neg (by norm_num [fromLE]), if_pos (by norm_num [fromLE]),
        deserStr_ser s (ho s rfl) r]
      rfl

theorem deserStrs_ser (l : List Bytes) (hl : ∀ s ∈ l, s.length < U64MOD) (r : Bytes) :
    deserStrs l.length ((l.map serStr).flatten ++ r) = some (l, r) := by
  induction l with
  | nil => simp [deserStrs]
  | cons s ss ih =>
      have hs : s.length < U64MOD := hl s (by simp)
      have hss : ∀ t ∈ ss, t.length < U64MOD := fun t ht => hl t (by simp [ht])
      simp only [List.length_cons, deserStrs, List.map_cons, List.flatten_cons,
        List.append_assoc, deserStr_ser s hs, Option.some_bind', ih hss, Option.map_some']

theorem deserVecStr_ser (l : List Bytes) (hn : l.length < U64MOD)
    (hl : ∀ s ∈ l, s.length < U64MOD) (r : Bytes) :
    deserVecStr (serVecStr l ++ r) = some (l, r) := by
  simp only [deserVecStr, serVecStr, List.append_assoc, deserU64_ser l.length hn,
    Option.some_bind', deserStrs_ser l hl r]

theorem deserGistit_ser (g : Gistit) (hg : wfGistit g) (r : Bytes) :
    deserGistit (serGistit g ++ r) = some (g, r) := by
  obtain ⟨h1, h2⟩ := hg
  simp only [deserGistit, serGistit, List.append_assoc, deserStr_ser g.hash h1,
    Option.some_bind', deserStr_ser g.content h2, Option.map_some']

theorem deserServerResponse_ser (sr : ServerResponse) (hsr : wfServerResponse sr)
    (r : Bytes) : deserServerResponse (serServerResponse sr ++ r) = some (sr, r) := by
  cases sr with
  | provide o =>
      have ho : ∀ s, o = some s → s.length < U64MOD := by
        intro s hso; subst hso; exact hsr
      simp only [serServerResponse, deserServerResponse, List.append_assoc,
        deserU32_ser 0 (by norm_num [U32MOD]), Option.some_bind']
      rw [if_true, deserOptStr_ser o ho r]
      rfl
  | fetch g =>
      simp only [serServerResponse, deserServerResponse, List.append_assoc,
        deserU32_ser 1 (by norm_num [U32MOD]), Option.some_bind']
      rw [if_true, deserGistit_ser g hsr r]
      rfl
  | status pid pc pend ls host =>
      obtain ⟨h1, h2, h3, h4, h5, h6⟩ := hsr
      simp only [serServerResponse, deserServerResponse, List.append_assoc]
      rw [deserU32_ser 2 (by norm_num [U32MOD])]
      simp only [Option.some_bind']
      norm_num
      rw [deserStr_ser pid h1]
      simp only [Option.some_bind']
      rw [deserU64_ser pc h2]
      simp only [Option.some_bind']
      rw [deserU32_ser pend h3]
      simp only [Option.some_bind']
      rw [deserVecStr_ser ls h4 h5]
      simp only [Option.some_bind']
      rw [deserU64_ser host h6]
      rfl

theorem deserInstruction_ser (i : Instruction) (hi : wfInstruction i) (r : Bytes) :
    deserInstruction (serInstruction i ++ r) = some (i, r) := by
  cases i with
  | provide h d =>
      obtain ⟨h1, h2⟩ := hi
      simp only [serInstruction, deserInstruction, List.append_assoc,
        deserU32_ser 0 (by norm_num [U32MOD]), Option.some_bind']
      rw [if_true, deserStr_ser h h1]
      simp only [Option.some_bind', deserGistit_ser d h2, Option.map_some']
  | fetch h =>
      simp only [serInstruction, deserInstruction, List.append_assoc,
        deserU32_ser 1 (by norm_num [U32MOD]), Option.some_bind']
      rw [if_true, deserStr_ser h hi r]
      rfl
  | status =>
      simp only [serInstruction, deserInstruction, List.append_nil,
        deserU32_ser 2 (by norm_num [U32MOD]), Option.some_bind']
      norm_num
  | shutdown =>
      simp only [serInstruction, deserInstruction, List.append_nil,
        deserU32_ser 3 (by norm_num [U32MOD]), Option.some_bind']
      norm_num
  | response sr =>
      simp only [serInstruction, deserInstruction, List.append_assoc,
        deserU32_ser 4 (by norm_num [U32MOD]), Option.some_bind']
      rw [if_true, deserServerResponse_ser sr hi r]
      rfl

/-! ## Canonicality: an accepted parse consumed exactly the canonical encoding

These are the converses of the round-trip lemmas: whenever a parser accepts
an input, the consumed prefix is the encoding of the returned value — and the
returned value is representable.  Together with round-trip this pins the
decoder down completely and, in particular, rules out a successful decode of
a truncated datagram. -/

theorem deserU64_canonical (l : Bytes) (n : Nat) (r : Bytes)
    (h : deserU64 l = some (n, r)) : l = serU64 n ++ r ∧ n < U64MOD := by
  simp only [deserU64, Option.map_eq_some'] at h
  obtain ⟨⟨b, rest⟩, hrb, hval⟩ := h
  obtain ⟨hl, hlen⟩ := readBytes_canonical 8 l b rest hrb
  simp only [Prod.mk.injEq] at hval
  obtain ⟨h1, h2⟩ := hval
  subst h1; subst h2
  refine ⟨?_, ?_⟩
  · rw [hl, serU64, toLE_fromLE b 8 hlen]
  · have hlt := fromLE_lt b
    rw [hlen] at hlt
    rw [← U64MOD_eq]
    exact hlt

theorem deserU32_canonical (l : Bytes) (n : Nat) (r : Bytes)
    (h : deserU32 l = some (n, r)) : l = serU32 n ++ r ∧ n < U32MOD := by
  simp only [deserU32, Option.map_eq_some'] at h
  obtain ⟨⟨b, rest⟩, hrb, hval⟩ := h
  obtain ⟨hl, hlen⟩ := readBytes_canonical 4 l b rest hrb
  simp only [Prod.mk.injEq] at hval
  obtain ⟨h1, h2⟩ := hval
  subst h1; subst h2
  refine ⟨?_, ?_⟩
  · rw [hl, serU32, toLE_fromLE b 4 hlen]
  · have hlt := fromLE_lt b
    rw [hlen] at hlt
    rw [← U32MOD_eq]
    exact hlt

theorem deserStr_canonical (l s r : Bytes) (h : deserStr l = some (s, r)) :
    l = serStr s ++ r ∧ s.length < U64MOD := by
  simp only [deserStr, Option.bind_eq_some'] at h
  obtain ⟨⟨n, rest⟩, hd, hrb⟩ := h
  obtain ⟨hl, hlt⟩ := deserU64_canonical l n rest hd
  obtain ⟨hr, hlen⟩ := readBytes_canonical n rest s r hrb
  subst hlen
  exact ⟨by rw [hl, hr, serStr, List.append_assoc], hlt⟩

theorem deserOptStr_canonical (l : Bytes) (o : Option Bytes) (r : Bytes)
    (h : deserOptStr l = some (o, r)) :
    l = serOptStr o ++ r ∧ ∀ s, o = some s → s.length < U64MOD := by
  simp only [deserOptStr, Option.bind_eq_some'] at h
  obtain ⟨⟨b, rest⟩, hrb, hbr⟩ := h
  obtain ⟨hl, hlen⟩ := readBytes_canonical 1 l b rest hrb
  by_cases h0 : fromLE b = 0
  · rw [if_pos h0] at hbr
    simp only [Option.some.injEq, Prod.mk.injEq] at hbr
    obtain ⟨ho, hr⟩ := hbr
    subst ho; subst hr
    have hb : b = toLE 1 0 := by
      have hbb := (toLE_fromLE b 1 hlen).symm
      rwa [h0] at hbb
    refine ⟨by rw [hl, hb]; rfl, ?_⟩
    intro s hs
    exact absurd hs (by simp)
  · by_cases h1 : fromLE b = 1
    · rw [if_neg h0, if_pos h1] at hbr
      simp only [Option.map_eq_some'] at hbr
      obtain ⟨⟨s, rest2⟩, hds, hval⟩ := hbr
      simp only [Prod.mk.injEq] at hval
      obtain ⟨ho, hr⟩ := hval
      subst ho; subst hr
      obtain ⟨hrest, hslt⟩ := deserStr_canonical rest s rest2 hds
      have hb : b = toLE 1 1 := by
        have hbb := (toLE_fromLE b 1 hlen).symm
        rwa [h1] at hbb
      refine ⟨?_, ?_⟩
      · rw [hl, hrest, hb, serOptStr, List.append_assoc]
      · intro t ht
        injection ht with ht
        subst ht
        exact hslt
    · rw [if_neg h0, if_neg h1] at hbr
      cases hbr

theorem deserStrs_canonical (n : Nat) (l : Bytes) (ss : List Bytes) (r : Bytes)
    (h : deserStrs n l = some (ss, r)) :
    l = (ss.map serStr).flatten ++ r ∧ ss.length = n ∧ ∀ s ∈ ss, s.length < U64MOD := by
  induction n generalizing l ss r with
  | zero =>
      simp only [deserStrs, Option.some.injEq, Prod.mk.injEq] at h
      obtain ⟨h1, h2⟩ := h
      subst h1; subst h2
      simp
  | succ n ih =>
      simp only [deserStrs, Option.bind_eq_some', Option.map_eq_some'] at h
      obtain ⟨⟨s, rest⟩, hds, ⟨⟨ss2, rest2⟩, hdss, hval⟩⟩ := h
      simp only [Prod.mk.injEq] at hval
      obtain ⟨h1, h2⟩ := hval
      subst h1; subst h2
      obtain ⟨hl, hslt⟩ := deserStr_canonical l s rest hds
      obtain ⟨hrest, hlenn, hall⟩ := ih rest ss2 rest2 hdss
      refine ⟨?_, by simp [hlenn], ?_⟩
      · rw [hl, hrest]
        simp [List.append_assoc]
      · intro t ht
        rcases List.mem_cons.mp ht with hth | hth
        · subst hth; exact hslt
        · exact hall t hth

theorem deserVecStr_canonical (l : Bytes) (ss : List Bytes) (r : Bytes)
    (h : deserVecStr l = some (ss, r)) :
    l = serVecStr ss ++ r ∧ ss.length < U64MOD ∧ ∀ s ∈ ss, s.length < U64MOD := by
  simp only [deserVecStr, Option.bind_eq_some'] at h
  obtain ⟨⟨n, rest⟩, hd, hdss⟩ := h
  obtain ⟨hl, hnlt⟩ := deserU64_canonical l n rest hd
  obtain ⟨hrest, hlen, hall⟩ := deserStrs_canonical n rest ss r hdss
  subst hlen
  exact ⟨by rw [hl, hrest, serVecStr, List.append_assoc], hnlt, hall⟩

theorem deserGistit_canonical (l : Bytes) (g : Gistit) (r : Bytes)
    (h : deserGistit l = some (g, r)) : l = serGistit g ++ r ∧ wfGistit g := by
  simp only [deserGistit, Option.bind_eq_some', Option.map_eq_some'] at h
  obtain ⟨⟨h1, rest⟩, hd1, ⟨⟨c, rest2⟩, hd2, hval⟩⟩ := h
  simp only [Prod.mk.injEq] at hval
  obtain ⟨hg, hr⟩ := hval
  subst hg; subst hr
  obtain ⟨hl, hlt1⟩ := deserStr_canonical l h1 rest hd1
  obtain ⟨hrest, hlt2⟩ := deserStr_canonical rest c rest2 hd2
  exact ⟨by rw [hl, hrest, serGistit, List.append_assoc], hlt1, hlt2⟩

theorem deserServerResponse_canonical (l : Bytes) (sr : ServerResponse) (r : Bytes)
    (h : deserServerResponse l = some (sr, r)) :
    l = serServerResponse sr ++ r ∧ wfServerResponse sr := by
  simp only [deserServerResponse, Option.bind_eq_some'] at h
  obtain ⟨⟨t, rest⟩, hdt, hb⟩ := h
  obtain ⟨hl, htlt⟩ := deserU32_canonical l t rest hdt
  split_ifs at hb with h0 h1 h2
  · subst h0
    simp only [Option.map_eq_some'] at hb
    obtain ⟨⟨o, rest2⟩, hdo, hval⟩ := hb
    simp only [Prod.mk.injEq] at hval
    obtain ⟨hsr, hr⟩ := hval
    subst hsr; subst hr
    obtain ⟨hrest, ho⟩ := deserOptStr_canonical rest o rest2 hdo
    refine ⟨by rw [hl, hrest]; simp [serServerResponse, List.append_assoc], ?_⟩
    cases o with
    | none => trivial
    | some s => exact ho s rfl
  · subst h1
    simp only [Option.map_eq_some'] at hb
    obtain ⟨⟨g, rest2⟩, hdg, hval⟩ := hb
    simp only [Prod.mk.injEq] at hval
    obtain ⟨hsr, hr⟩ := hval
    subst hsr; subst hr
    obtain ⟨hrest, hg⟩ := deserGistit_canonical rest g rest2 hdg
    exact ⟨by rw [hl, hrest]; simp [serServerResponse, List.append_assoc], hg⟩
  · subst h2
    simp only [Option.bind_eq_some', Option.map_eq_some'] at hb
    obtain ⟨⟨pid, r1⟩, hd1, ⟨⟨pc, r2⟩, hd2, ⟨⟨pend, r3⟩, hd3,
      ⟨⟨ls, r4⟩, hd4, ⟨⟨host, r5⟩, hd5, hval⟩⟩⟩⟩⟩ := hb
    simp only [Prod.mk.injEq] at hval
    obtain ⟨hsr, hr⟩ := hval
    subst hsr; subst hr
    obtain ⟨hc1, hw1⟩ := deserStr_canonical rest pid r1 hd1
    obtain ⟨hc2, hw2⟩ := deserU64_canonical r1 pc r2 hd2
    obtain ⟨hc3, hw3⟩ := deserU32_canonical r2 pend r3 hd3
    obtain ⟨hc4, hw4, hw4b⟩ := deserVecStr_canonical r3 ls r4 hd4
    obtain ⟨hc5, hw5⟩ := deserU64_canonical r4 host r5 hd5
    refine ⟨?_, hw1, hw2, hw3, hw4, hw4b, hw5⟩
    rw [hl, hc1, hc2, hc3, hc4, hc5]
    simp [serServerResponse, List.append_assoc]

theorem deserInstruction_canonical (l : Bytes) (i : Instruction) (r : Bytes)
    (h : deserInstruction l = some (i, r)) :
    l = serInstruction i ++ r ∧ wfInstruction i := by
  simp only [deserInstruction, Option.bind_eq_some'] at h
  obtain ⟨⟨t, rest⟩, hdt, hb⟩ := h
  obtain ⟨hl, htlt⟩ := deserU32_canonical l t rest hdt
  split_ifs at hb with h0 h1 h2 h3 h4
  · subst h0
    simp only [Option.bind_eq_some', Option.map_eq_some'] at hb
    obtain ⟨⟨hs, r1⟩, hd1, ⟨⟨g, r2⟩, hd2, hval⟩⟩ := hb
    simp only [Prod.mk.injEq] at hval
    obtain ⟨hi, hr⟩ := hval
    subst hi; subst hr
    obtain ⟨hc1, hw1⟩ := deserStr_canonical rest hs r1 hd1
    obtain ⟨hc2, hw2⟩ := deserGistit_canonical r1 g r2 hd2
    refine ⟨?_, hw1, hw2⟩
    rw [hl, hc1, hc2]
    simp [serInstruction, List.append_assoc]
  · subst h1
    simp only [Option.map_eq_some'] at hb
    obtain ⟨⟨hs, r1⟩, hd1, hval⟩ := hb
    simp only [Prod.mk.injEq] at hval
    obtain ⟨hi, hr⟩ := hval
    subst hi; subst hr
    obtain ⟨hc1, hw1⟩ := deserStr_canonical rest hs r1 hd1
    exact ⟨by rw [hl, hc1]; simp [serInstruction, List.append_assoc], hw1⟩
  · subst h2
    simp only [Option.some.injEq, Prod.mk.injEq] at hb
    obtain ⟨hi, hr⟩ := hb
    subst hi; subst hr
    exact ⟨by rw [hl]; rfl, trivial⟩
  · subst h3
    simp only [Option.some.injEq, Prod.mk.injEq] at hb
    obtain ⟨hi, hr⟩ := hb
    subst hi; subst hr
    exact ⟨by rw [hl]; rfl, trivial⟩
  · subst h4
    simp only [Option.map_eq_some'] at hb
    obtain ⟨⟨sr, r1⟩, hd1, hval⟩ := hb
    simp only [Prod.mk.injEq] at hval
    obtain ⟨hi, hr⟩ := hval
    subst hi; subst hr
    obtain ⟨hc1, hw1⟩ := deserServerResponse_canonical rest sr r1 hd1
    exact ⟨by rw [hl, hc1]; simp [serInstruction, List.append_assoc], hw1⟩

/-- A truncated encoding never parses: cutting any `Instruction` encoding
short (to any length `m` below its true size) makes `deserInstruction`
fail — there is no way to mistake the truncated prefix for a complete
message. -/
theorem deserInstruction_take_none (i : Instruction) (hi : wfInstruction i) (m : Nat)
    (hm : m < (serInstruction i).length) :
    deserInstruction ((serInstruction i).take m) = none := by
  cases hdec : deserInstruction ((serInstruction i).take m) with
  | none => rfl
  | some p =>
      obtain ⟨v, rest⟩ := p
      obtain ⟨htake, hwv⟩ := deserInstruction_canonical _ v rest hdec
      have hsplit : serInstruction i =
          (serInstruction i).take m ++ (serInstruction i).drop m :=
        (List.take_append_drop m _).symm
      rw [htake] at hsplit
      have h2 : deserInstruction (serInstruction i) =
          some (v, rest ++ (serInstruction i).drop m) := by
        conv_lhs => rw [hsplit]
        rw [List.append_assoc]
        exact deserInstruction_ser v hwv _
      have h3 : deserInstruction (serInstruction i) = some (i, []) := by
        have hrt := deserInstruction_ser i hi []
        rwa [List.append_nil] at hrt
      rw [h3] at h2
      simp only [Option.some.injEq, Prod.mk.injEq] at h2
      obtain ⟨hvi, hnil⟩ := h2
      have hdroplen : ((serInstruction i).drop m).length = 0 := by
        have hc := congrArg List.length hnil
        simp only [List.length_append, List.length_nil] at hc
        omega
      rw [List.length_drop] at hdroplen
      omega

/-! ## The datagram transport (`Bridge<Server>` / `Bridge<Client>` send & recv)

`send` serializes the instruction and writes it as one datagram on the
outbound socket (lines 148-153 and 187-192).  `recv` allocates
`vec![0u8; READBUF_SIZE]`, lets the OS copy `min(len, READBUF_SIZE)` bytes of
the next queued datagram into it (a longer datagram is truncated at the OS
layer), and then runs `deserialize` over the *entire* fixed buffer
(lines 160-165 and 199-204).

Each direction of the connected socket pair is modelled as the OS models a
local `AF_UNIX` datagram socket's queue: a FIFO list of in-flight datagrams. -/

/-- `const READBUF_SIZE: usize = 60_000` (line 44). -/
def READBUF_SIZE : Nat := 60000

/-- The zero byte the receive buffer is initialised with. -/
def zeroByte : Byte := ⟨0, by omega⟩

/-- Contents of the fixed receive buffer after the OS delivers datagram `d`
into `vec![0u8; READBUF_SIZE]`: the first `min(len, READBUF_SIZE)` bytes of
`d`, the rest still zero. -/
def readbufAfterRecv (d : Bytes) : Bytes :=
  d.take READBUF_SIZE ++ List.replicate (READBUF_SIZE - d.length) zeroByte

/-- What `recv` makes of one delivered datagram: deserialize the whole
buffer, keep the value, ignore the unconsumed tail; `none` is the decode
failure `Err`. -/
def decodeDatagram (d : Bytes) : Option Instruction :=
  (deserInstruction (readbufAfterRecv d)).map (fun p => p.1)

/-- The two in-flight datagram queues of a connected bridge pair:
`toServer` sits on `sock_0` (bound by the Server role), `toClient` on
`sock_1` (bound by the Client role). -/
structure SysState where
  toServer : List Bytes
  toClient : List Bytes
deriving DecidableEq

/-- `Bridge<Server>::send`: serialize and write one datagram on `sock_1`. -/
def serverSend (s : SysState) (i : Instruction) : SysState :=
  { s with toClient := s.toClient ++ [serInstruction i] }

/-- `Bridge<Client>::send`: serialize and write one datagram on `sock_0`. -/
def clientSend (s : SysState) (i : Instruction) : SysState :=
  { s with toServer := s.toServer ++ [serInstruction i] }

/-- `Bridge<Server>::recv`: take the next datagram off `sock_0` and decode
it.  The outer `none` means no datagram is queued and the call stays blocked;
the inner `Option` is the decode result. -/
def serverRecv (s : SysState) : Option (Option Instruction × SysState) :=
  match s.toServer with
  | [] => none
  | d :: rest => some (decodeDatagram d, { s with toServer := rest })

/-- `Bridge<Client>::recv`: take the next datagram off `sock_1` and decode it. -/
def clientRecv (s : SysState) : Option (Option Instruction × SysState) :=
  match s.toClient with
  | [] => none
  | d :: rest => some (decodeDatagram d, { s with toClient := rest })

/-- Decoding a delivered datagram that fits the receive buffer recovers
exactly the instruction that was serialized into it. -/
theorem decodeDatagram_ser (i : Instruction) (hi : wfInstruction i)
    (hlen : (serInstruction i).length ≤ READBUF_SIZE) :
    decodeDatagram (serInstruction i) = some i := by
  have htake : (serInstruction i).take READBUF_SIZE = serInstruction i :=
    List.take_of_length_le hlen
  rw [decodeDatagram, readbufAfterRecv, htake,
    deserInstruction_ser i hi (List.replicate (READBUF_SIZE - (serInstruction i).length) zeroByte)]
  rfl

/-- Decoding the OS-truncated delivery of a datagram that exceeds the
receive buffer always fails. -/
theorem decodeDatagram_ser_oversized (i : Instruction) (hi : wfInstruction i)
    (hlen : READBUF_SIZE < (serInstruction i).length) :
    decodeDatagram (serInstruction i) = none := by
  have hpad : READBUF_SIZE - (serInstruction i).length = 0 := by omega
  rw [decodeDatagram, readbufAfterRecv, hpad, List.replicate_zero, List.append_nil,
    deserInstruction_take_none i hi READBUF_SIZE hlen]
  rfl

/-! ## `__connect_blocking` (lines 117-127)

```text
let earlier = Instant::now();
while let Err(err) = dgram.connect(base.join(sock_name)) {
    if Instant::now().duration_since(earlier).as_secs() > CONNECT_TIMEOUT_SECS {
        return Err(err.into());
    }
}
Ok(())
```

Discrete-time embedding: iteration `k` performs the `k`-th connect attempt
(`ok k` says whether it succeeds) and, when the attempt fails, reads the
clock (`elapsed k` is `duration_since(earlier).as_secs()`, the truncated
whole-second count, at that check).  There is no sleep in the loop body, so
attempts follow one another immediately; `fuel` bounds the number of
iterations we unroll, with `none` meaning the loop has not exited yet. -/

/-- `const CONNECT_TIMEOUT_SECS: u64 = 3` (line 45). -/
def CONNECT_TIMEOUT_SECS : Nat := 3

/-- One unrolling of the retry loop from iteration `k` with `fuel`
iterations left: `some true` is `Ok(())`, `some false` is the timeout
`return Err(err)` taken right after a failed attempt. -/
def connectLoop (ok : Nat → Bool) (elapsed : Nat → Nat) : Nat → Nat → Option Bool
  | 0, _ => none
  | fuel + 1, k =>
      if ok k then some true
      else if CONNECT_TIMEOUT_SECS < elapsed k then some false
      else connectLoop ok elapsed fuel (k + 1)

/-- The loop exits within `d + 1` further iterations once the clock is
guaranteed past the timeout at iteration `k + d`. -/
theorem connectLoop_exits (ok : Nat → Bool) (elapsed : Nat → Nat) (d : Nat) :
    ∀ k fuel, d + 1 ≤ fuel → CONNECT_TIMEOUT_SECS < elapsed (k + d) →
      connectLoop ok elapsed fuel k ≠ none := by
  induction d with
  | zero =>
      intro k fuel hfuel hto
      obtain ⟨fuel2, rfl⟩ : ∃ f2, fuel = f2 + 1 := ⟨fuel - 1, by omega⟩
      rw [connectLoop]
      rcases hok : ok k with hv | hv
      · rw [if_neg (by simp [hok]), if_pos (by simpa using hto)]
        simp
      · rw [if_pos (by simp [hok])]
        simp
  | succ d ih =>
      intro k fuel hfuel hto
      obtain ⟨fuel2, rfl⟩ : ∃ f2, fuel = f2 + 1 := ⟨fuel - 1, by omega⟩
      rw [connectLoop]
      rcases hok : ok k with hv | hv
      · rw [if_neg (by simp [hok])]
        by_cases hnow : CONNECT_TIMEOUT_SECS < elapsed k
        · rw [if_pos hnow]; simp
        · rw [if_neg hnow]
          exact ih (k + 1) fuel2 (by omega) (by rw [Nat.add_right_comm]; exact hto)
      · rw [if_pos (by simp [hok])]
        simp

/-- The loop never reports the timeout error unless the attempt of that very
iteration failed. -/
theorem connectLoop_err_attempt_failed (ok : Nat → Bool) (elapsed : Nat → Nat) :
    ∀ fuel k, connectLoop ok elapsed fuel k = some false →
      ∃ j, k ≤ j ∧ ok j = false ∧ CONNECT_TIMEOUT_SECS < elapsed j := by
  intro fuel
  induction fuel with
  | zero => intro k h; cases h
  | succ fuel ih =>
      intro k h
      rw [connectLoop] at h
      by_cases hok : ok k = true
      · rw [if_pos hok] at h; cases h
      · rw [if_neg hok] at h
        by_cases hto : CONNECT_TIMEOUT_SECS < elapsed k
        · exact ⟨k, le_refl k, by simpa using hok, hto⟩
        · rw [if_neg hto] at h
          obtain ⟨j, hj, hjo, hjt⟩ := ih (k + 1) h
          exact ⟨j, by omega, hjo, hjt⟩

/-- The loop returns `Ok` the moment an attempt succeeds: if every earlier
attempt failed without tripping the timeout check and attempt `n` succeeds,
the result is `some true`. -/
theorem connectLoop_ok_first_success (ok : Nat → Bool) (elapsed : Nat → Nat) :
    ∀ n k fuel, n + 1 ≤ fuel →
      (∀ j, k ≤ j → j < k + n → ok j = false ∧ elapsed j ≤ CONNECT_TIMEOUT_SECS) →
      ok (k + n) = true →
      connectLoop ok elapsed fuel k = some true := by
  intro n
  induction n with
  | zero =>
      intro k fuel hfuel hpre hsucc
      obtain ⟨fuel2, rfl⟩ : ∃ f2, fuel = f2 + 1 := ⟨fuel - 1, by omega⟩
      rw [connectLoop, if_pos (by simpa using hsucc)]
  | succ n ih =>
      intro k fuel hfuel hpre hsucc
      obtain ⟨fuel2, rfl⟩ : ∃ f2, fuel = f2 + 1 := ⟨fuel - 1, by omega⟩
      obtain ⟨hk0, hk1⟩ := hpre k (le_refl k) (by omega)
      rw [connectLoop, if_neg (by simp [hk0]), if_neg (by omega)]
      refine ih (k + 1) fuel2 (by omega) ?_ (by rw [Nat.add_right_comm]; exact hsucc)
      intro j hj1 hj2
      exact hpre j (by omega) (by omega)

/-- The loop reports the timeout as soon as a failed attempt sees the clock
past the timeout: if no attempt up to `n` succeeds, earlier checks stayed
within the timeout, and the check at iteration `n` is past it, the result is
`some false`. -/
theorem connectLoop_err_first_timeout (ok : Nat → Bool) (elapsed : Nat → Nat) :
    ∀ n k fuel, n + 1 ≤ fuel →
      (∀ j, k ≤ j → j ≤ k + n → ok j = false) →
      (∀ j, k ≤ j → j < k + n → elapsed j ≤ CONNECT_TIMEOUT_SECS) →
      CONNECT_TIMEOUT_SECS < elapsed (k + n) →
      connectLoop ok elapsed fuel k = some false := by
  intro n
  induction n with
  | zero =>
      intro k fuel hfuel hfail hpre hto
      obtain ⟨fuel2, rfl⟩ : ∃ f2, fuel = f2 + 1 := ⟨fuel - 1, by omega⟩
      rw [connectLoop, if_neg (by simp [hfail k (le_refl k) (by omega)]),
        if_pos (by simpa using hto)]
  | succ n ih =>
      intro k fuel hfuel hfail hpre hto
      obtain ⟨fuel2, rfl⟩ : ∃ f2, fuel = f2 + 1 := ⟨fuel - 1, by omega⟩
      rw [connectLoop, if_neg (by simp [hfail k (le_refl k) (by omega)]),
        if_neg (by simp [hpre k (le_refl k) (by omega)])]
      refine ih (k + 1) fuel2 (by omega) ?_ ?_ (by rw [Nat.add_right_comm]; exact hto)
      · intro j hj1 hj2
        exact hfail j (by omega) (by omega)
      · intro j hj1 hj2
        exact hpre j (by omega) (by omega)

/-! ## Constructors and liveness probe (`server` / `client` / `__alive`)

Filesystem embedding for the socket-file effects.  The two well-known socket
file names come from `gistit_reference` (their values, `gistit-0` and
`gistit-1`, are pinned by the crate's own tests).  A `FileSys` carries the
current directory contents plus, for each path, whether the OS would reject
a `remove_file` or a bind there (permissions, invalid path, ...). -/

/-- `NAMED_SOCKET_0`: the socket file bound by the Server role. -/
def NAMED_SOCKET_0 : String := "gistit-0"

/-- `NAMED_SOCKET_1`: the socket file bound by the Client role. -/
def NAMED_SOCKET_1 : String := "gistit-1"

/-- A path under the shared base directory: `base.join(name)`. -/
structure SockPath where
  base : String
  name : String
deriving DecidableEq

/-- `base.join(name)`. -/
def joinPath (base name : String) : SockPath := SockPath.mk base name

/-- What occupies a path: a bound datagram socket, or some other file. -/
inductive FileKind where
  | socket
  | regular
deriving DecidableEq

/-- Filesystem state: directory contents plus the OS-level failure modes the
code can run into at each path. -/
structure FileSys where
  files : SockPath → Option FileKind
  removeRejected : SockPath → Bool
  bindRejected : SockPath → Bool

/-- Overwrite one path's entry. -/
def FileSys.setFile (fs : FileSys) (p : SockPath) (k : Option FileKind) : FileSys :=
  { fs with files := fun q => if q = p then k else fs.files q }

/-- `metadata(path).is_ok()`: does anything exist at the path? -/
def metadataOk (fs : FileSys) (p : SockPath) : Bool := (fs.files p).isSome

/-- `remove_file(path)`: unlink, unless the OS rejects it. -/
def removeFile (fs : FileSys) (p : SockPath) : Except Unit FileSys :=
  if fs.removeRejected p = true then Except.error ()
  else Except.ok (fs.setFile p none)

/-- `UnixDatagram::bind(path)`: create a fresh bound socket file; fails when
the OS rejects it or something already occupies the path. -/
def bindSocket (fs : FileSys) (p : SockPath) : Except Unit FileSys :=
  if fs.bindRejected p = true then Except.error ()
  else if fs.files p = none then Except.ok (fs.setFile p (some FileKind.socket))
  else Except.error ()

/-- `dgram.connect(path)` succeeds exactly when a bound socket file is
currently at the path. -/
def connectOk (fs : FileSys) (p : SockPath) : Bool :=
  fs.files p = some FileKind.socket

/-- A `Bridge<Server>` value: it owns the bound `sock_0`; only the base
directory matters for path bookkeeping. -/
structure BridgeServer where
  base : String
deriving DecidableEq

/-- A `Bridge<Client>` value: it owns the bound `sock_1`. -/
structure BridgeClient where
  base : String
deriving DecidableEq

/-- `server(base)` (lines 71-87): if anything exists at
`base.join(NAMED_SOCKET_0)` remove it, then bind `sock_0` there. -/
def server (fs : FileSys) (base : String) : Except Unit (FileSys × BridgeServer) :=
  (if metadataOk fs (joinPath base NAMED_SOCKET_0) = true
    then removeFile fs (joinPath base NAMED_SOCKET_0)
    else Except.ok fs).bind (fun fs1 =>
      (bindSocket fs1 (joinPath base NAMED_SOCKET_0)).map
        (fun fs2 => (fs2, BridgeServer.mk base)))

/-- `client(base)` (lines 95-111): if anything exists at
`base.join(NAMED_SOCKET_1)` remove it, then bind `sock_1` there. -/
def client (fs : FileSys) (base : String) : Except Unit (FileSys × BridgeClient) :=
  (if metadataOk fs (joinPath base NAMED_SOCKET_1) = true
    then removeFile fs (joinPath base NAMED_SOCKET_1)
    else Except.ok fs).bind (fun fs1 =>
      (bindSocket fs1 (joinPath base NAMED_SOCKET_1)).map
        (fun fs2 => (fs2, BridgeClient.mk base)))

/-- `__alive` (lines 113-115): one connect attempt to `base.join(sock_name)`,
reported as a `Bool`. -/
def aliveProbe (fs : FileSys) (base : String) (sock_name : String) : Bool :=
  connectOk fs (joinPath base sock_name)

/-- The path a Server bridge bound at construction. -/
def BridgeServer.bindPath (br : BridgeServer) : SockPath :=
  joinPath br.base NAMED_SOCKET_0

/-- The peer path every Server-role operation targets
(`NAMED_SOCKET_1`, lines 131, 140, 151). -/
def BridgeServer.targetPath (br : BridgeServer) : SockPath :=
  joinPath br.base NAMED_SOCKET_1

/-- `Bridge<Server>::alive` (lines 130-132). -/
def BridgeServer.alive (br : BridgeServer) (fs : FileSys) : Bool :=
  aliveProbe fs br.base NAMED_SOCKET_1

/-- `Bridge<Server>::connect_blocking` against a filesystem that does not
change while the loop runs: the first attempt already decides. -/
def BridgeServer.connectBlocking (br : BridgeServer) (fs : FileSys) : Except Unit Unit :=
  if connectOk fs br.targetPath = true then Except.ok () else Except.error ()

/-- The path a Client bridge bound at construction. -/
def BridgeClient.bindPath (br : BridgeClient) : SockPath :=
  joinPath br.base NAMED_SOCKET_1

/-- The peer path every Client-role operation targets
(`NAMED_SOCKET_0`, lines 170, 179, 190). -/
def BridgeClient.targetPath (br : BridgeClient) : SockPath :=
  joinPath br.base NAMED_SOCKET_0

/-- `Bridge<Client>::alive` (lines 169-171). -/
def BridgeClient.alive (br : BridgeClient) (fs : FileSys) : Bool :=
  aliveProbe fs br.base NAMED_SOCKET_0

/-- `Bridge<Client>::connect_blocking` against an unchanging filesystem. -/
def BridgeClient.connectBlocking (br : BridgeClient) (fs : FileSys) : Except Unit Unit :=
  if connectOk fs br.targetPath = true then Except.ok () else Except.error ()

/-! ### Inversion and success lemmas for the constructors -/

theorem except_bind_ok {ε α β : Type} (e : Except ε α) (f : α → Except ε β) (b : β)
    (h : e.bind f = Except.ok b) : ∃ a, e = Except.ok a ∧ f a = Except.ok b := by
  cases e with
  | error err => simp [Except.bind] at h
  | ok a => exact ⟨a, rfl, h⟩

theorem except_map_ok {ε α β : Type} (e : Except ε α) (f : α → β) (b : β)
    (h : e.map f = Except.ok b) : ∃ a, e = Except.ok a ∧ f a = b := by
  cases e with
  | error err => simp [Except.map] at h
  | ok a =>
      simp only [Except.map] at h
      injection h with h
      exact ⟨a, rfl, h⟩

theorem setFile_same (fs : FileSys) (p : SockPath) (k : Option FileKind) :
    (fs.setFile p k).files p = k := by simp [FileSys.setFile]

theorem setFile_other (fs : FileSys) (p : SockPath) (k : Option FileKind)
    (q : SockPath) (h : q ≠ p) : (fs.setFile p k).files q = fs.files q := by
  simp [FileSys.setFile, h]

theorem bindSocket_ok_inv (fs fs2 : FileSys) (p : SockPath)
    (h : bindSocket fs p = Except.ok fs2) : fs2 = fs.setFile p (some FileKind.socket) := by
  rw [bindSocket] at h
  split_ifs at h
  injection h with h
  exact h.symm

theorem removeFile_ok_inv (fs fs2 : FileSys) (p : SockPath)
    (h : removeFile fs p = Except.ok fs2) : fs2 = fs.setFile p none := by
  rw [removeFile] at h
  split_ifs at h
  injection h with h
  exact h.symm

/-- Inversion of a successful `server` construction: the returned bridge
remembers `base`, a bound socket now occupies `sockpath_0`, and every other
path (in particular `sockpath_1`) is untouched. -/
theorem server_ok_inv (fs fs2 : FileSys) (base : String) (br : BridgeServer)
    (h : server fs base = Except.ok (fs2, br)) :
    br = BridgeServer.mk base ∧
      fs2.files (joinPath base NAMED_SOCKET_0) = some FileKind.socket ∧
      ∀ q, q ≠ joinPath base NAMED_SOCKET_0 → fs2.files q = fs.files q := by
  rw [server] at h
  obtain ⟨fs1, hstep, hrest⟩ := except_bind_ok _ _ _ h
  obtain ⟨fs3, hbind, hmk⟩ := except_map_ok _ _ _ hrest
  have hfs : fs3 = fs2 := congrArg Prod.fst hmk
  have hbr : BridgeServer.mk base = br := congrArg Prod.snd hmk
  subst hfs
  have hset := bindSocket_ok_inv _ _ _ hbind
  subst hset
  have hframe1 : ∀ q, q ≠ joinPath base NAMED_SOCKET_0 → fs1.files q = fs.files q := by
    intro q hq
    split_ifs at hstep with hmeta
    · have hrm := removeFile_ok_inv _ _ _ hstep
      rw [hrm, setFile_other _ _ _ _ hq]
    · injection hstep with hstep
      rw [← hstep]
  refine ⟨hbr.symm, setFile_same .., ?_⟩
  intro q hq
  rw [setFile_other _ _ _ _ hq, hframe1 q hq]

/-- Inversion of a successful `client` construction. -/
theorem client_ok_inv (fs fs2 : FileSys) (base : String) (br : BridgeClient)
    (h : client fs base = Except.ok (fs2, br)) :
    br = BridgeClient.mk base ∧
      fs2.files (joinPath base NAMED_SOCKET_1) = some FileKind.socket ∧
      ∀ q, q ≠ joinPath base NAMED_SOCKET_1 → fs2.files q = fs.files q := by
  rw [client] at h
  obtain ⟨fs1, hstep, hrest⟩ := except_bind_ok _ _ _ h
  obtain ⟨fs3, hbind, hmk⟩ := except_map_ok _ _ _ hrest
  have hfs : fs3 = fs2 := congrArg Prod.fst hmk
  have hbr : BridgeClient.mk base = br := congrArg Prod.snd hmk
  subst hfs
  have hset := bindSocket_ok_inv _ _ _ hbind
  subst hset
  have hframe1 : ∀ q, q ≠ joinPath base NAMED_SOCKET_1 → fs1.files q = fs.files q := by
    intro q hq
    split_ifs at hstep with hmeta
    · have hrm := removeFile_ok_inv _ _ _ hstep
      rw [hrm, setFile_other _ _ _ _ hq]
    · injection hstep with hstep
      rw [← hstep]
  refine ⟨hbr.symm, setFile_same .., ?_⟩
  intro q hq
  rw [setFile_other _ _ _ _ hq, hframe1 q hq]

/-- `(Except.ok a).bind f` computes to `f a`. -/
theorem except_ok_bind {ε α β : Type} (a : α) (f : α → Except ε β) :
    (Except.ok a : Except ε α).bind f = f a := rfl

/-- When the OS rejects neither the removal nor the bind at `sockpath_0`,
`server` succeeds — regardless of whatever file was already there. -/
theorem server_ok_of_unrejected (fs : FileSys) (base : String)
    (hrm : fs.removeRejected (joinPath base NAMED_SOCKET_0) = false)
    (hbd : fs.bindRejected (joinPath base NAMED_SOCKET_0) = false) :
    ∃ fs2, server fs base = Except.ok (fs2, BridgeServer.mk base) := by
  rw [server]
  by_cases hmeta : metadataOk fs (joinPath base NAMED_SOCKET_0) = true
  · refine ⟨(fs.setFile (joinPath base NAMED_SOCKET_0) none).setFile
      (joinPath base NAMED_SOCKET_0) (some FileKind.socket), ?_⟩
    rw [if_pos hmeta, removeFile, if_neg (by simp [hrm]), except_ok_bind, bindSocket,
      if_neg (by simp [FileSys.setFile, hbd]), if_pos (setFile_same ..)]
    rfl
  · have hnone : fs.files (joinPath base NAMED_SOCKET_0) = none := by
      rw [metadataOk, Bool.not_eq_true] at hmeta
      exact Option.not_isSome_iff_eq_none.mp (by simp [hmeta])
    refine ⟨fs.setFile (joinPath base NAMED_SOCKET_0) (some FileKind.socket), ?_⟩
    rw [if_neg hmeta, except_ok_bind, bindSocket, if_neg (by simp [hbd]), if_pos hnone]
    rfl

/-- When the OS rejects neither the removal nor the bind at `sockpath_1`,
`client` succeeds. -/
theorem client_ok_of_unrejected (fs : FileSys) (base : String)
    (hrm : fs.removeRejected (joinPath base NAMED_SOCKET_1) = false)
    (hbd : fs.bindRejected (joinPath base NAMED_SOCKET_1) = false) :
    ∃ fs2, client fs base = Except.ok (fs2, BridgeClient.mk base) := by
  rw [client]
  by_cases hmeta : metadataOk fs (joinPath base NAMED_SOCKET_1) = true
  · refine ⟨(fs.setFile (joinPath base NAMED_SOCKET_1) none).setFile
      (joinPath base NAMED_SOCKET_1) (some FileKind.socket), ?_⟩
    rw [if_pos hmeta, removeFile, if_neg (by simp [hrm]), except_ok_bind, bindSocket,
      if_neg (by simp [FileSys.setFile, hbd]), if_pos (setFile_same ..)]
    rfl
  · have hnone : fs.files (joinPath base NAMED_SOCKET_1) = none := by
      rw [metadataOk, Bool.not_eq_true] at hmeta
      exact Option.not_isSome_iff_eq_none.mp (by simp [hmeta])
    refine ⟨fs.setFile (joinPath base NAMED_SOCKET_1) (some FileKind.socket), ?_⟩
    rw [if_neg hmeta, except_ok_bind, bindSocket, if_neg (by simp [hbd]), if_pos hnone]
    rfl

/-- A failed `server` construction means the filesystem rejected the removal
or the bind at `sockpath_0`. -/
theorem server_error_rejected (fs : FileSys) (base : String) (e : Unit)
    (h : server fs base = Except.error e) :
    fs.removeRejected (joinPath base NAMED_SOCKET_0) = true ∨
      fs.bindRejected (joinPath base NAMED_SOCKET_0) = true := by
  by_contra hcon
  push_neg at hcon
  obtain ⟨h1, h2⟩ := hcon
  obtain ⟨fs2, hok⟩ := server_ok_of_unrejected fs base
    (by simpa using h1) (by simpa using h2)
  rw [hok] at h
  cases h

/-- A failed `client` construction means the filesystem rejected the removal
or the bind at `sockpath_1`. -/
theorem client_error_rejected (fs : FileSys) (base : String) (e : Unit)
    (h : client fs base = Except.error e) :
    fs.removeRejected (joinPath base NAMED_SOCKET_1) = true ∨
      fs.bindRejected (joinPath base NAMED_SOCKET_1) = true := by
  by_contra hcon
  push_neg at hcon
  obtain ⟨h1, h2⟩ := hcon
  obtain ⟨fs2, hok⟩ := client_ok_of_unrejected fs base
    (by simpa using h1) (by simpa using h2)
  rw [hok] at h
  cases h

/-! ## The claims -/

/-- Demo filesystem for concrete instantiations: empty directory, no OS
rejections. -/
def demoFS : FileSys :=
  FileSys.mk (fun _ => none) (fun _ => false) (fun _ => false)

/-- Demo filesystem with a stale regular file already sitting at the server
socket path of base directory `b`. -/
def demoStaleFS : FileSys :=
  FileSys.mk (fun q => if q = joinPath "b" NAMED_SOCKET_0 then some FileKind.regular else none)
    (fun _ => false) (fun _ => false)

theorem serStr_length (s : Bytes) : (serStr s).length = 8 + s.length := by
  simp [serStr, serU64, toLE_length]

theorem serInstruction_fetch_length (h : Bytes) :
    (serInstruction (Instruction.fetch h)).length = 12 + h.length := by
  simp [serInstruction, serStr_length, serU32, toLE_length]
  omega

/-- Claim C1: every `Instruction` whose bincode encoding fits the 60,000-byte
receive buffer survives a send/recv round trip unchanged, in both directions
(Server sends and Client receives, and vice versa). -/
theorem claim_c1_send_recv_roundtrip (i : Instruction) (hi : wfInstruction i)
    (hlen : (serInstruction i).length ≤ READBUF_SIZE) :
    clientRecv (serverSend (SysState.mk [] []) i) = some (some i, SysState.mk [] []) ∧
    serverRecv (clientSend (SysState.mk [] []) i) = some (some i, SysState.mk [] []) := by
  constructor
  · simp only [serverSend, clientRecv, List.nil_append, decodeDatagram_ser i hi hlen]
  · simp only [clientSend, serverRecv, List.nil_append, decodeDatagram_ser i hi hlen]

theorem claim_c1_witness :
    wfInstruction (Instruction.fetch [⟨97, by omega⟩]) ∧
    (serInstruction (Instruction.fetch [⟨97, by omega⟩])).length ≤ READBUF_SIZE ∧
    clientRecv (serverSend (SysState.mk [] []) (Instruction.fetch [⟨97, by omega⟩])) =
      some (some (Instruction.fetch [⟨97, by omega⟩]), SysState.mk [] []) := by
  refine ⟨by decide, by decide, ?_⟩
  exact (claim_c1_send_recv_roundtrip (Instruction.fetch [⟨97, by omega⟩])
    (by decide) (by decide)).1

/-- Claim C2: a datagram whose true encoded size exceeds the 60,000-byte
receive buffer is truncated by the OS, and `recv` then reports a decode
failure — never a successful (silently corrupted) `Instruction`. -/
theorem claim_c2_oversized_decode_fails (i : Instruction) (hi : wfInstruction i)
    (hlen : READBUF_SIZE < (serInstruction i).length) :
    clientRecv (serverSend (SysState.mk [] []) i) = some (none, SysState.mk [] []) ∧
    serverRecv (clientSend (SysState.mk [] []) i) = some (none, SysState.mk [] []) := by
  constructor
  · simp only [serverSend, clientRecv, List.nil_append,
      decodeDatagram_ser_oversized i hi hlen]
  · simp only [clientSend, serverRecv, List.nil_append,
      decodeDatagram_ser_oversized i hi hlen]

theorem claim_c2_witness :
    READBUF_SIZE <
      (serInstruction (Instruction.fetch (List.replicate READBUF_SIZE zeroByte))).length ∧
    clientRecv (serverSend (SysState.mk [] [])
        (Instruction.fetch (List.replicate READBUF_SIZE zeroByte))) =
      some (none, SysState.mk [] []) := by
  have hlen : READBUF_SIZE <
      (serInstruction (Instruction.fetch (List.replicate READBUF_SIZE zeroByte))).length := by
    rw [serInstruction_fetch_length, List.length_replicate]
    norm_num [READBUF_SIZE]
  have hwf : wfInstruction (Instruction.fetch (List.replicate READBUF_SIZE zeroByte)) := by
    show (List.replicate READBUF_SIZE zeroByte).length < U64MOD
    rw [List.length_replicate]
    norm_num [READBUF_SIZE, U64MOD]
  exact ⟨hlen, (claim_c2_oversized_decode_fails _ hwf hlen).1⟩

/-- Claim C6: two instructions sent sequentially by one role come out of the
peer's successive `recv` calls in send order (per-sender FIFO), in both
directions. -/
theorem claim_c6_fifo_order (a b : Instruction) (ha : wfInstruction a)
    (hb : wfInstruction b) (hla : (serInstruction a).length ≤ READBUF_SIZE)
    (hlb : (serInstruction b).length ≤ READBUF_SIZE) :
    (serverRecv (clientSend (clientSend (SysState.mk [] []) a) b) =
        some (some a, SysState.mk [serInstruction b] []) ∧
      serverRecv (SysState.mk [serInstruction b] []) =
        some (some b, SysState.mk [] [])) ∧
    (clientRecv (serverSend (serverSend (SysState.mk [] []) a) b) =
        some (some a, SysState.mk [] [serInstruction b]) ∧
      clientRecv (SysState.mk [] [serInstruction b]) =
        some (some b, SysState.mk [] [])) := by
  refine ⟨⟨?_, ?_⟩, ⟨?_, ?_⟩⟩ <;>
    simp only [clientSend, serverSend, serverRecv, clientRecv, List.nil_append,
      List.singleton_append, decodeDatagram_ser a ha hla, decodeDatagram_ser b hb hlb]

theorem claim_c6_witness :
    serverRecv (clientSend (clientSend (SysState.mk [] [])
        (Instruction.fetch [⟨97, by omega⟩])) (Instruction.fetch [⟨98, by omega⟩])) =
      some (some (Instruction.fetch [⟨97, by omega⟩]),
        SysState.mk [serInstruction (Instruction.fetch [⟨98, by omega⟩])] []) ∧
    serverRecv (SysState.mk [serInstruction (Instruction.fetch [⟨98, by omega⟩])] []) =
      some (some (Instruction.fetch [⟨98, by omega⟩]), SysState.mk [] []) :=
  (claim_c6_fifo_order (Instruction.fetch [⟨97, by omega⟩])
    (Instruction.fetch [⟨98, by omega⟩]) (by decide) (by decide)
    (by decide) (by decide)).1

/-- Claim C8: `recv` deserializes the whole fixed buffer, so its correctness
rests on decoding depending only on the encoding prefix: for every
representable `Instruction` and arbitrary trailing bytes, deserializing the
encoding followed by that padding yields exactly the original value with the
padding untouched. -/
theorem claim_c8_padding_insensitive (i : Instruction) (hi : wfInstruction i)
    (pad : Bytes) :
    deserInstruction (serInstruction i ++ pad) = some (i, pad) ∧
    (deserInstruction (serInstruction i ++ pad)).map (fun p => p.1) = some i := by
  refine ⟨deserInstruction_ser i hi pad, ?_⟩
  rw [deserInstruction_ser i hi pad]
  rfl

theorem claim_c8_witness :
    deserInstruction (serInstruction Instruction.shutdown ++ [zeroByte, zeroByte]) =
      some (Instruction.shutdown, [zeroByte, zeroByte]) :=
  (claim_c8_padding_insensitive Instruction.shutdown trivial [zeroByte, zeroByte]).1

/-- Claim C3: `__connect_blocking` retries with no inter-attempt delay (the
loop body holds nothing but the attempt and the clock check, so attempts are
consecutive iterations); it returns `Ok` at the first successful attempt
(provided no earlier check had already tripped the timeout), an error is
only ever returned at a failed attempt whose elapsed whole-second clock
reading exceeds `CONNECT_TIMEOUT_SECS` (never earlier than the 3-second
timeout), and when no attempt succeeds the error comes at the very first
check past the timeout (not substantially later). -/
theorem claim_c3_connect_blocking_timeout (ok : Nat → Bool) (elapsed : Nat → Nat) :
    (∀ n fuel, n + 1 ≤ fuel →
      (∀ j, j < n → ok j = false ∧ elapsed j ≤ CONNECT_TIMEOUT_SECS) →
      ok n = true → connectLoop ok elapsed fuel 0 = some true) ∧
    (∀ fuel k, connectLoop ok elapsed fuel k = some false →
      ∃ j, k ≤ j ∧ ok j = false ∧ CONNECT_TIMEOUT_SECS < elapsed j) ∧
    (∀ n fuel, n + 1 ≤ fuel →
      (∀ j, j ≤ n → ok j = false) →
      (∀ j, j < n → elapsed j ≤ CONNECT_TIMEOUT_SECS) →
      CONNECT_TIMEOUT_SECS < elapsed n →
      connectLoop ok elapsed fuel 0 = some false) := by
  refine ⟨?_, connectLoop_err_attempt_failed ok elapsed, ?_⟩
  · intro n fuel hf hpre hsucc
    refine connectLoop_ok_first_success ok elapsed n 0 fuel hf ?_ (by simpa using hsucc)
    intro j hj0 hjn
    exact hpre j (by omega)
  · intro n fuel hf hfail hpre hto
    refine connectLoop_err_first_timeout ok elapsed n 0 fuel hf ?_ ?_ (by simpa using hto)
    · intro j hj0 hjn
      exact hfail j (by omega)
    · intro j hj0 hjn
      exact hpre j (by omega)

theorem claim_c3_witness :
    connectLoop (fun k => k == 2) (fun k => k) 5 0 = some true ∧
    connectLoop (fun _ => false) (fun k => k) 6 0 = some false := by
  constructor
  · exact (claim_c3_connect_blocking_timeout (fun k => k == 2) (fun k => k)).1 2 5
      (by omega) (by decide) (by decide)
  · exact (claim_c3_connect_blocking_timeout (fun _ => false) (fun k => k)).2.2 4 6
      (by omega) (by decide) (by decide) (by decide)

/-- Claim C10: under the assumption that the truncated-seconds clock strictly
advances across iterations, `__connect_blocking` always terminates — within
`CONNECT_TIMEOUT_SECS + 2` iterations it has returned `Ok` or the timeout
error — and it never returns an error without at least one failed connect
attempt (the error returned is that of the failing attempt). -/
theorem claim_c10_loop_terminates (ok : Nat → Bool) (elapsed : Nat → Nat)
    (hadv : ∀ k, elapsed k + 1 ≤ elapsed (k + 1)) :
    (∃ r, connectLoop ok elapsed (CONNECT_TIMEOUT_SECS + 2) 0 = some r) ∧
    (∀ fuel k, connectLoop ok elapsed fuel k = some false → ∃ j, ok j = false) := by
  constructor
  · have hstep : ∀ k d, elapsed k + d ≤ elapsed (k + d) := by
      intro k d
      induction d with
      | zero => simp
      | succ d ih =>
          have hd := hadv (k + d)
          show elapsed k + (d + 1) ≤ elapsed (k + d + 1)
          omega
    have h4 : CONNECT_TIMEOUT_SECS < elapsed (0 + (CONNECT_TIMEOUT_SECS + 1)) := by
      have hs := hstep 0 (CONNECT_TIMEOUT_SECS + 1)
      have h0 : 0 ≤ elapsed 0 := Nat.zero_le _
      rw [CONNECT_TIMEOUT_SECS] at hs ⊢
      omega
    have hne := connectLoop_exits ok elapsed (CONNECT_TIMEOUT_SECS + 1) 0
      (CONNECT_TIMEOUT_SECS + 2) (le_refl _) h4
    cases hr : connectLoop ok elapsed (CONNECT_TIMEOUT_SECS + 2) 0 with
    | none => exact absurd hr hne
    | some r => exact ⟨r, rfl⟩
  · intro fuel k h
    obtain ⟨j, _, hj, _⟩ := connectLoop_err_attempt_failed ok elapsed fuel k h
    exact ⟨j, hj⟩

theorem claim_c10_witness :
    ∃ r, connectLoop (fun _ => false) (fun k => k) (CONNECT_TIMEOUT_SECS + 2) 0 = some r :=
  (claim_c10_loop_terminates (fun _ => false) (fun k => k)
    (fun k => Nat.le_refl (k + 1))).1

/-- Claim C4: a Server-role bridge binds socket A (`NAMED_SOCKET_0`) and
every one of its operations targets only socket B's path (`NAMED_SOCKET_1`);
a Client-role bridge binds B and targets only A.  The role is fixed by the
constructor (the bridge value carries nothing the operations could use to
swap paths), the two paths are distinct, and sending never touches the
sender's own inbound queue. -/
theorem claim_c4_role_paths (fs fsS fsC : FileSys) (base : String)
    (brS : BridgeServer) (brC : BridgeClient)
    (hS : server fs base = Except.ok (fsS, brS))
    (hC : client fs base = Except.ok (fsC, brC)) :
    brS.bindPath = joinPath base NAMED_SOCKET_0 ∧
    brS.targetPath = joinPath base NAMED_SOCKET_1 ∧
    brC.bindPath = joinPath base NAMED_SOCKET_1 ∧
    brC.targetPath = joinPath base NAMED_SOCKET_0 ∧
    brS.bindPath ≠ brS.targetPath ∧
    brC.bindPath ≠ brC.targetPath ∧
    fsS.files brS.bindPath = some FileKind.socket ∧
    fsC.files brC.bindPath = some FileKind.socket ∧
    (∀ fsX, brS.alive fsX = connectOk fsX brS.targetPath) ∧
    (∀ fsX, brS.connectBlocking fsX =
      if connectOk fsX brS.targetPath = true then Except.ok () else Except.error ()) ∧
    (∀ fsX, brC.alive fsX = connectOk fsX brC.targetPath) ∧
    (∀ fsX, brC.connectBlocking fsX =
      if connectOk fsX brC.targetPath = true then Except.ok () else Except.error ()) ∧
    (∀ s i, (serverSend s i).toServer = s.toServer) ∧
    (∀ s i, (serverSend s i).toClient = s.toClient ++ [serInstruction i]) ∧
    (∀ s i, (clientSend s i).toClient = s.toClient) ∧
    (∀ s i, (clientSend s i).toServer = s.toServer ++ [serInstruction i]) := by
  obtain ⟨hbrS, hfileS, _⟩ := server_ok_inv fs fsS base brS hS
  obtain ⟨hbrC, hfileC, _⟩ := client_ok_inv fs fsC base brC hC
  subst hbrS
  subst hbrC
  refine ⟨rfl, rfl, rfl, rfl, ?_, ?_, hfileS, hfileC, fun _ => rfl, fun _ => rfl,
    fun _ => rfl, fun _ => rfl, fun _ _ => rfl, fun _ _ => rfl, fun _ _ => rfl,
    fun _ _ => rfl⟩
  · simp [BridgeServer.bindPath, BridgeServer.targetPath, joinPath,
      NAMED_SOCKET_0, NAMED_SOCKET_1]
  · simp [BridgeClient.bindPath, BridgeClient.targetPath, joinPath,
      NAMED_SOCKET_0, NAMED_SOCKET_1]

theorem claim_c4_witness :
    (BridgeServer.mk "b").bindPath = joinPath "b" NAMED_SOCKET_0 ∧
    (BridgeServer.mk "b").targetPath = joinPath "b" NAMED_SOCKET_1 ∧
    (BridgeServer.mk "b").bindPath ≠ (BridgeServer.mk "b").targetPath := by
  have hres := claim_c4_role_paths demoFS
    (demoFS.setFile (joinPath "b" NAMED_SOCKET_0) (some FileKind.socket))
    (demoFS.setFile (joinPath "b" NAMED_SOCKET_1) (some FileKind.socket)) "b"
    (BridgeServer.mk "b") (BridgeClient.mk "b") rfl rfl
  exact ⟨hres.1, hres.2.1, hres.2.2.2.2.1⟩

/-- Claim C5: construction removes any pre-existing file at the role's own
socket path unconditionally and then binds successfully — yielding a live,
connectable socket — and construction fails with a bind error only when the
filesystem rejects the removal or the bind. -/
theorem claim_c5_stale_file_rebind (fs : FileSys) (base : String) :
    ((∃ k, fs.files (joinPath base NAMED_SOCKET_0) = some k) →
      fs.removeRejected (joinPath base NAMED_SOCKET_0) = false →
      fs.bindRejected (joinPath base NAMED_SOCKET_0) = false →
      ∃ fs2, server fs base = Except.ok (fs2, BridgeServer.mk base) ∧
        fs2.files (joinPath base NAMED_SOCKET_0) = some FileKind.socket ∧
        connectOk fs2 (joinPath base NAMED_SOCKET_0) = true) ∧
    (∀ e, server fs base = Except.error e →
      fs.removeRejected (joinPath base NAMED_SOCKET_0) = true ∨
        fs.bindRejected (joinPath base NAMED_SOCKET_0) = true) ∧
    ((∃ k, fs.files (joinPath base NAMED_SOCKET_1) = some k) →
      fs.removeRejected (joinPath base NAMED_SOCKET_1) = false →
      fs.bindRejected (joinPath base NAMED_SOCKET_1) = false →
      ∃ fs2, client fs base = Except.ok (fs2, BridgeClient.mk base) ∧
        fs2.files (joinPath base NAMED_SOCKET_1) = some FileKind.socket ∧
        connectOk fs2 (joinPath base NAMED_SOCKET_1) = true) ∧
    (∀ e, client fs base = Except.error e →
      fs.removeRejected (joinPath base NAMED_SOCKET_1) = true ∨
        fs.bindRejected (joinPath base NAMED_SOCKET_1) = true) := by
  refine ⟨?_, server_error_rejected fs base, ?_, client_error_rejected fs base⟩
  · intro _ hrm hbd
    obtain ⟨fs2, hok⟩ := server_ok_of_unrejected fs base hrm hbd
    obtain ⟨_, hfile, _⟩ := server_ok_inv fs fs2 base (BridgeServer.mk base) hok
    exact ⟨fs2, hok, hfile, by simp [connectOk, hfile]⟩
  · intro _ hrm hbd
    obtain ⟨fs2, hok⟩ := client_ok_of_unrejected fs base hrm hbd
    obtain ⟨_, hfile, _⟩ := client_ok_inv fs fs2 base (BridgeClient.mk base) hok
    exact ⟨fs2, hok, hfile, by simp [connectOk, hfile]⟩

theorem claim_c5_witness :
    (∃ k, demoStaleFS.files (joinPath "b" NAMED_SOCKET_0) = some k) ∧
    ∃ fs2, server demoStaleFS "b" = Except.ok (fs2, BridgeServer.mk "b") ∧
      fs2.files (joinPath "b" NAMED_SOCKET_0) = some FileKind.socket ∧
      connectOk fs2 (joinPath "b" NAMED_SOCKET_0) = true := by
  have hstale : demoStaleFS.files (joinPath "b" NAMED_SOCKET_0) = some FileKind.regular := by
    simp [demoStaleFS]
  exact ⟨⟨FileKind.regular, hstale⟩,
    (claim_c5_stale_file_rebind demoStaleFS "b").1 ⟨FileKind.regular, hstale⟩ rfl rfl⟩

/-- Claim C7: `alive()` is exactly one connect attempt at the peer's named
socket path — it returns true iff that path currently holds a connectable
bound socket — and after a Server and a Client bridge are both set up on the
same base directory (so both `connect_blocking` calls succeed), `alive()`
returns true on both. -/
theorem claim_c7_alive (fs fs1 fs2 : FileSys) (base : String)
    (brS : BridgeServer) (brC : BridgeClient)
    (hS : server fs base = Except.ok (fs1, brS))
    (hC : client fs1 base = Except.ok (fs2, brC)) :
    (∀ fsX bn sn, aliveProbe fsX bn sn = connectOk fsX (joinPath bn sn)) ∧
    brS.connectBlocking fs2 = Except.ok () ∧
    brC.connectBlocking fs2 = Except.ok () ∧
    brS.alive fs2 = true ∧
    brC.alive fs2 = true := by
  obtain ⟨hbrS, hfileS, _⟩ := server_ok_inv fs fs1 base brS hS
  obtain ⟨hbrC, hfileC, hframeC⟩ := client_ok_inv fs1 fs2 base brC hC
  subst hbrS
  subst hbrC
  have hp01 : joinPath base NAMED_SOCKET_0 ≠ joinPath base NAMED_SOCKET_1 := by
    simp [joinPath, NAMED_SOCKET_0, NAMED_SOCKET_1]
  have hfile0 : fs2.files (joinPath base NAMED_SOCKET_0) = some FileKind.socket := by
    rw [hframeC _ hp01]
    exact hfileS
  have hcS : connectOk fs2 (BridgeServer.mk base).targetPath = true := by
    simp [connectOk, BridgeServer.targetPath, hfileC]
  have hcC : connectOk fs2 (BridgeClient.mk base).targetPath = true := by
    simp [connectOk, BridgeClient.targetPath, hfile0]
  refine ⟨fun _ _ _ => rfl, ?_, ?_, ?_, ?_⟩
  · rw [BridgeServer.connectBlocking, if_pos hcS]
  · rw [BridgeClient.connectBlocking, if_pos hcC]
  · simp [BridgeServer.alive, aliveProbe, connectOk, hfileC]
  · simp [BridgeClient.alive, aliveProbe, connectOk, hfile0]

theorem claim_c7_witness :
    (BridgeServer.mk "b").alive
        ((demoFS.setFile (joinPath "b" NAMED_SOCKET_0) (some FileKind.socket)).setFile
          (joinPath "b" NAMED_SOCKET_1) (some FileKind.socket)) = true ∧
    (BridgeClient.mk "b").alive
        ((demoFS.setFile (joinPath "b" NAMED_SOCKET_0) (some FileKind.socket)).setFile
          (joinPath "b" NAMED_SOCKET_1) (some FileKind.socket)) = true := by
  have hres := claim_c7_alive demoFS
    (demoFS.setFile (joinPath "b" NAMED_SOCKET_0) (some FileKind.socket))
    ((demoFS.setFile (joinPath "b" NAMED_SOCKET_0) (some FileKind.socket)).setFile
      (joinPath "b" NAMED_SOCKET_1) (some FileKind.socket)) "b"
    (BridgeServer.mk "b") (BridgeClient.mk "b") rfl rfl
  exact ⟨hres.2.2.2.1, hres.2.2.2.2⟩

/-- Claim C9: constructing a bridge touches only its own role's named socket
file — every other path, in particular the peer's socket path, is left
exactly as it was. -/
theorem claim_c9_constructor_frame (fs fsS fsC : FileSys) (base : String)
    (brS : BridgeServer) (brC : BridgeClient) :
    (server fs base = Except.ok (fsS, brS) →
      (∀ q, q ≠ joinPath base NAMED_SOCKET_0 → fsS.files q = fs.files q) ∧
      fsS.files (joinPath base NAMED_SOCKET_1) = fs.files (joinPath base NAMED_SOCKET_1)) ∧
    (client fs base = Except.ok (fsC, brC) →
      (∀ q, q ≠ joinPath base NAMED_SOCKET_1 → fsC.files q = fs.files q) ∧
      fsC.files (joinPath base NAMED_SOCKET_0) = fs.files (joinPath base NAMED_SOCKET_0)) := by
  constructor
  · intro hS
    obtain ⟨_, _, hframe⟩ := server_ok_inv fs fsS base brS hS
    refine ⟨hframe, hframe _ ?_⟩
    simp [joinPath, NAMED_SOCKET_0, NAMED_SOCKET_1]
  · intro hC
    obtain ⟨_, _, hframe⟩ := client_ok_inv fs fsC base brC hC
    refine ⟨hframe, hframe _ ?_⟩
    simp [joinPath, NAMED_SOCKET_0, NAMED_SOCKET_1]

theorem claim_c9_witness :
    (demoFS.setFile (joinPath "b" NAMED_SOCKET_0) (some FileKind.socket)).files
        (joinPath "b" NAMED_SOCKET_1) = demoFS.files (joinPath "b" NAMED_SOCKET_1) :=
  ((claim_c9_constructor_frame demoFS
      (demoFS.setFile (joinPath "b" NAMED_SOCKET_0) (some FileKind.socket)) demoFS "b"
      (BridgeServer.mk "b") (BridgeClient.mk "b")).1 rfl).2
